import Mathlib

/-!
Verification of the stefanclaw conversational-session engine.

This file shallowly embeds the core of the Go sources:
  * `internal/session` — token estimator, conversation compaction
    (`EstimateTokens`, `Compact`), and the JSONL transcript codec
    (`AppendMessage`, `ReadTranscript`);
  * `internal/tui` — the streaming session controller (`Model.Update`,
    `Model.handleSubmit`, `Model.New`), the adaptive context-size ladder
    and the heartbeat scheduler.

Go machine integers are modelled as `Nat` (or `Int` where the source can
receive non-positive configuration values), Go slices as `List`, Go strings
as Lean `String`/`List Char`, fallible calls as `Except`/`Option`, and the
external LLM backend as an explicit function argument.
-/

namespace StefanClaw

/-- `provider.Message`: one chat message (role, content). -/
structure Message where
  role : String
  content : String
  deriving Repr, DecidableEq

/-- The part of `provider.ChatResponse` consumed by `Compact` (its `Message`
field; the unused `Model`/`Usage` fields are omitted). -/
structure ChatResponse where
  message : Message
  deriving Repr, DecidableEq

/-- `session.EstimateTokens`: sum over messages of `len(m.Content) / 4`
(Go `len` counts UTF-8 bytes). -/
def EstimateTokens (messages : List Message) : Nat :=
  messages.foldl (fun total m => total + m.content.utf8ByteSize / 4) 0

/-- `session.CompactResult`. -/
structure CompactResult where
  summary : String
  originalCount : Nat
  remainingCount : Nat
  compactedTokens : Nat
  deriving Repr, DecidableEq

/-- The fixed summarization instruction `session.compactPrompt`. -/
def compactPrompt : String :=
  "Summarize this conversation concisely. Capture key topics discussed, decisions made, and important context. Write in third person, past tense. Keep it under 200 words."

/-- The transcript rendering loop inside `session.Compact`: old messages are
rendered one per line, with `summary`-role messages labelled as a prior
summary. -/
def renderOld (old : List Message) : String :=
  old.foldl
    (fun acc m =>
      if m.role = "summary" then acc ++ "[Previous summary]: " ++ m.content ++ "\n"
      else acc ++ m.role ++ ": " ++ m.content ++ "\n")
    ""

/-- `threshold := int(float64(maxTokens) * 0.8)` from `session.Compact`.
For every `maxTokens` below `2^50` the Go float64 computation truncates to
exactly `⌊maxTokens * 4 / 5⌋`, which is how it is embedded here. -/
def compactThreshold (maxTokens : Nat) : Nat :=
  maxTokens * 4 / 5

/-- `session.Compact`.  The backend is the explicit argument `chat`
(modelling `provider.Provider.Chat`, taking the model name and message list
of the request).  The result mirrors Go's
`(*CompactResult, []provider.Message, error)` triple. -/
def Compact (chat : String → List Message → Except String ChatResponse)
    (model : String) (messages : List Message) (maxTokens keepRecent : Nat) :
    Option CompactResult × List Message × Option String :=
  let tokens := EstimateTokens messages
  let threshold := compactThreshold maxTokens
  if tokens ≤ threshold ∨ messages.length ≤ keepRecent + 1 then
    (none, messages, none)
  else
    let splitIdx := messages.length - keepRecent
    if splitIdx < 1 then (none, messages, none)
    else
      let oldMessages := messages.take splitIdx
      let recentMessages := messages.drop splitIdx
      let transcript := renderOld oldMessages
      match chat model [⟨"system", compactPrompt⟩, ⟨"user", transcript⟩] with
      | .error e => (none, messages, some ("compacting conversation: " ++ e))
      | .ok resp =>
        let summary := resp.message.content
        let compacted := Message.mk "summary" summary :: recentMessages
        (some ⟨summary, messages.length, compacted.length, EstimateTokens oldMessages⟩,
         compacted, none)

/-- C1: when `Compact` actually compacts (estimate above threshold, more than
`keepRecent + 1` messages) and the backend call succeeds, the new list is the
summary message followed by exactly the last `keepRecent` original messages,
and the `CompactResult` records `originalCount = messages.length` and
`remainingCount = 1 + keepRecent`. -/
theorem compact_success_shape
    (chat : String → List Message → Except String ChatResponse)
    (model : String) (messages : List Message) (maxTokens keepRecent : Nat)
    (resp : ChatResponse)
    (hTok : compactThreshold maxTokens < EstimateTokens messages)
    (hLen : keepRecent + 1 < messages.length)
    (hChat : chat model
        [⟨"system", compactPrompt⟩,
         ⟨"user", renderOld (messages.take (messages.length - keepRecent))⟩] =
      .ok resp) :
    let out := Compact chat model messages maxTokens keepRecent
    out.2.1.length = 1 + keepRecent ∧
    out.2.1.head? = some ⟨"summary", resp.message.content⟩ ∧
    out.2.1.tail = messages.drop (messages.length - keepRecent) ∧
    (messages.drop (messages.length - keepRecent)).length = keepRecent ∧
    out.1 = some ⟨resp.message.content, messages.length, 1 + keepRecent,
                  EstimateTokens (messages.take (messages.length - keepRecent))⟩ ∧
    out.2.2 = none := by
  intro out
  have hcond : ¬ (EstimateTokens messages ≤ compactThreshold maxTokens ∨
      messages.length ≤ keepRecent + 1) := by
    push_neg
    exact ⟨hTok, hLen⟩
  have hsplit : ¬ (messages.length - keepRecent < 1) := by omega
  have hdrop : (messages.drop (messages.length - keepRecent)).length = keepRecent := by
    rw [List.length_drop]
    omega
  have hout : out =
      (some ⟨resp.message.content, messages.length,
             (Message.mk "summary" resp.message.content ::
               messages.drop (messages.length - keepRecent)).length,
             EstimateTokens (messages.take (messages.length - keepRecent))⟩,
       Message.mk "summary" resp.message.content ::
         messages.drop (messages.length - keepRecent), none) := by
    simp only [out, Compact, if_neg hcond, if_neg hsplit, hChat]
  rw [hout]
  refine ⟨?_, rfl, rfl, hdrop, ?_, rfl⟩
  · simp [hdrop]
    omega
  · simp [hdrop]
    omega

/-- Witness for `compact_success_shape` at a concrete compactable input. -/
theorem compact_success_shape_witness :
    let chat : String → List Message → Except String ChatResponse :=
      fun _ _ => .ok ⟨⟨"assistant", "They talked."⟩⟩
    let messages : List Message :=
      [⟨"user", "aaaaaaaaaaaaaaaaaaaaaaaa"⟩, ⟨"assistant", "bbbbbbbbbbbbbbbbbbbbbbbb"⟩,
       ⟨"user", "cccccccccccccccccccccccc"⟩, ⟨"assistant", "dddddddddddddddddddddddd"⟩]
    let out := Compact chat "m" messages 10 2
    out.2.1.length = 1 + 2 ∧
    out.2.1.head? = some ⟨"summary", "They talked."⟩ ∧
    out.2.1.tail = messages.drop (messages.length - 2) ∧
    (messages.drop (messages.length - 2)).length = 2 ∧
    out.1 = some ⟨"They talked.", messages.length, 1 + 2,
                  EstimateTokens (messages.take (messages.length - 2))⟩ ∧
    out.2.2 = none :=
  compact_success_shape _ "m" _ 10 2 ⟨⟨"assistant", "They talked."⟩⟩
    (by decide) (by decide) rfl

/-- C2: if `Compact` attempts summarization and the backend call fails, the
original message list is returned unchanged together with a non-nil error and
no `CompactResult`. -/
theorem compact_backend_failure_preserves_history
    (chat : String → List Message → Except String ChatResponse)
    (model : String) (messages : List Message) (maxTokens keepRecent : Nat)
    (e : String)
    (hTok : compactThreshold maxTokens < EstimateTokens messages)
    (hLen : keepRecent + 1 < messages.length)
    (hChat : chat model
        [⟨"system", compactPrompt⟩,
         ⟨"user", renderOld (messages.take (messages.length - keepRecent))⟩] =
      .error e) :
    Compact chat model messages maxTokens keepRecent =
      (none, messages, some ("compacting conversation: " ++ e)) := by
  have hcond : ¬ (EstimateTokens messages ≤ compactThreshold maxTokens ∨
      messages.length ≤ keepRecent + 1) := by
    push_neg
    exact ⟨hTok, hLen⟩
  have hsplit : ¬ (messages.length - keepRecent < 1) := by omega
  simp only [Compact, if_neg hcond, if_neg hsplit, hChat]

/-- Witness for `compact_backend_failure_preserves_history` at a concrete
input whose backend call fails. -/
theorem compact_backend_failure_witness :
    let chat : String → List Message → Except String ChatResponse :=
      fun _ _ => .error "boom"
    let messages : List Message :=
      [⟨"user", "aaaaaaaaaaaaaaaaaaaaaaaa"⟩, ⟨"assistant", "bbbbbbbbbbbbbbbbbbbbbbbb"⟩,
       ⟨"user", "cccccccccccccccccccccccc"⟩, ⟨"assistant", "dddddddddddddddddddddddd"⟩]
    Compact chat "m" messages 10 2 =
      (none, messages, some ("compacting conversation: " ++ "boom")) :=
  compact_backend_failure_preserves_history _ "m" _ 10 2 "boom"
    (by decide) (by decide) rfl

/-- C3: below the threshold, or with at most `keepRecent + 1` messages,
`Compact` is a no-op for every backend — no result, unchanged messages, no
error; the result not depending on `chat` expresses that no backend call is
made. -/
theorem compact_noop_below_threshold
    (chat : String → List Message → Except String ChatResponse)
    (model : String) (messages : List Message) (maxTokens keepRecent : Nat)
    (h : EstimateTokens messages ≤ compactThreshold maxTokens ∨
         messages.length ≤ keepRecent + 1) :
    Compact chat model messages maxTokens keepRecent = (none, messages, none) := by
  simp only [Compact, if_pos h]

/-- Witness for `compact_noop_below_threshold` at a concrete short input. -/
theorem compact_noop_below_threshold_witness :
    Compact (fun _ _ => .error "never called") "m"
      [⟨"user", "Hi"⟩, ⟨"assistant", "Hello!"⟩] 10000 4 =
      (none, [⟨"user", "Hi"⟩, ⟨"assistant", "Hello!"⟩], none) :=
  compact_noop_below_threshold _ "m" _ 10000 4 (by decide)

/-! ## Transcript codec (`internal/session/transcript.go`)

`AppendMessage` writes `json.Marshal(msg)` plus a newline to the transcript
file, with no bound on line length; `ReadTranscript` scans the file line by
line with a `bufio.Scanner` created with the default buffer (a missing file
yields an empty list), skips empty lines, and unmarshals each remaining
line.  The default buffer caps one scanner token at
`bufio.MaxScanTokenSize` (64 KiB): a line at least that many bytes long
makes `Scan` stop with `ErrTooLong`, and `ReadTranscript` returns the
messages parsed so far together with that error.

The file system is modelled as `Option (List Char)` — `none` is a missing
file, `some content` its contents.  `json.Marshal` of `provider.Message`
(fields `role`, `content`, no omitempty, compact output, HTML escaping on)
is embedded by `encodeMessage`; `json.Unmarshal` into a `Message` is embedded
by `decodeLine`, a parser for JSON objects whose member values are strings
(unknown keys are skipped, later duplicates win, surrounding whitespace is
tolerated — a top-level `null` and unknown keys with non-string values,
which Go would accept, and non-string values for the two known keys, which
Go would reject, are all rejected outright, and `\u` escapes are decoded
without surrogate-pair combination, which the encoder never emits). -/

/-- Lower-case hex digit, as produced by Go's `encoding/json` (`"0123456789abcdef"`). -/
def hexDigitChar (n : Nat) : Char :=
  if n < 10 then Char.ofNat (48 + n) else Char.ofNat (87 + n)

/-- Value of one hex digit, accepting both cases. -/
def hexVal (c : Char) : Option Nat :=
  if 48 ≤ c.toNat ∧ c.toNat ≤ 57 then some (c.toNat - 48)
  else if 97 ≤ c.toNat ∧ c.toNat ≤ 102 then some (c.toNat - 87)
  else if 65 ≤ c.toNat ∧ c.toNat ≤ 70 then some (c.toNat - 55)
  else none

/-- Go `encoding/json` string escaping of one character (HTML escaping on,
the `json.Marshal` default): `"` `\` and the control characters are escaped,
`<` `>` `&` and U+2028/U+2029 become `\u`-escapes, everything else is
emitted verbatim. -/
def escapeChar (c : Char) : List Char :=
  if c = '"' then ['\\', '"']
  else if c = '\\' then ['\\', '\\']
  else if c = '\n' then ['\\', 'n']
  else if c = '\r' then ['\\', 'r']
  else if c = '\t' then ['\\', 't']
  else if c = '<' then ['\\', 'u', '0', '0', '3', 'c']
  else if c = '>' then ['\\', 'u', '0', '0', '3', 'e']
  else if c = '&' then ['\\', 'u', '0', '0', '2', '6']
  else if c.toNat < 32 then
    ['\\', 'u', '0', '0', hexDigitChar (c.toNat / 16), hexDigitChar (c.toNat % 16)]
  else if c.toNat = 8232 then ['\\', 'u', '2', '0', '2', '8']
  else if c.toNat = 8233 then ['\\', 'u', '2', '0', '2', '9']
  else [c]

/-- The escaped body of a JSON string literal. -/
def encodeBody (s : String) : List Char :=
  s.data.foldr (fun c acc => escapeChar c ++ acc) []

/-- A complete JSON string literal. -/
def encodeStr (s : String) : List Char :=
  '"' :: encodeBody s ++ ['"']

/-- `json.Marshal` of a `provider.Message`:
`{"role":<role>,"content":<content>}`. -/
def encodeMessage (m : Message) : List Char :=
  '{' :: encodeStr "role" ++ ':' :: encodeStr m.role ++
    ',' :: encodeStr "content" ++ ':' :: encodeStr m.content ++ ['}']

/-- `session.AppendMessage`: create-if-missing, append one marshalled line. -/
def appendMessage (file : Option (List Char)) (m : Message) : Option (List Char) :=
  some (file.getD [] ++ encodeMessage m ++ ['\n'])

/-- JSON string-body parser: consumes up to and including the closing quote,
returning the decoded characters and the rest of the input.  Mirrors Go's
scanner: raw control characters and unknown escapes are rejected. -/
def parseStringBody : List Char → Option (List Char × List Char)
  | [] => none
  | c :: rest =>
    if c = '"' then some ([], rest)
    else if c = '\\' then
      match rest with
      | [] => none
      | e :: r =>
        if e = '"' then (parseStringBody r).map (fun p => ('"' :: p.1, p.2))
        else if e = '\\' then (parseStringBody r).map (fun p => ('\\' :: p.1, p.2))
        else if e = '/' then (parseStringBody r).map (fun p => ('/' :: p.1, p.2))
        else if e = 'n' then (parseStringBody r).map (fun p => ('\n' :: p.1, p.2))
        else if e = 'r' then (parseStringBody r).map (fun p => ('\r' :: p.1, p.2))
        else if e = 't' then (parseStringBody r).map (fun p => ('\t' :: p.1, p.2))
        else if e = 'b' then (parseStringBody r).map (fun p => (Char.ofNat 8 :: p.1, p.2))
        else if e = 'f' then (parseStringBody r).map (fun p => (Char.ofNat 12 :: p.1, p.2))
        else if e = 'u' then
          match r with
          | h1 :: h2 :: h3 :: h4 :: r2 =>
            match hexVal h1, hexVal h2, hexVal h3, hexVal h4 with
            | some x1, some x2, some x3, some x4 =>
              (parseStringBody r2).map
                (fun p => (Char.ofNat (((x1 * 16 + x2) * 16 + x3) * 16 + x4) :: p.1, p.2))
            | _, _, _, _ => none
          | _ => none
        else none
    else if c.toNat < 32 then none
    else (parseStringBody rest).map (fun p => (c :: p.1, p.2))

/-- JSON insignificant whitespace. -/
def isJsonWs (c : Char) : Bool :=
  c = ' ' || c = '\t' || c = '\n' || c = '\r'

/-- Skip insignificant whitespace. -/
def skipWs (l : List Char) : List Char :=
  l.dropWhile isJsonWs

/-- Assign a parsed string member to the matching `Message` field
(unknown keys are ignored, as Go does by default). -/
def updateField (m : Message) (key val : List Char) : Message :=
  if String.mk key = "role" then { m with role := String.mk val }
  else if String.mk key = "content" then { m with content := String.mk val }
  else m

/-- Member-list parser for a JSON object with string values, positioned just
after `{` or after a `,`.  The fuel argument only bounds the number of
members; `decodeLine` supplies one unit per remaining input character, which
is always enough. -/
def parseMembersF : Nat → Message → List Char → Option (Message × List Char)
  | 0, _, _ => none
  | Nat.succ fuel, m, l =>
    match skipWs l with
    | [] => none
    | c :: r1 =>
      if c = '"' then
        match parseStringBody r1 with
        | none => none
        | some (key, r2) =>
          match skipWs r2 with
          | [] => none
          | c2 :: r3 =>
            if c2 = ':' then
              match skipWs r3 with
              | [] => none
              | c3 :: r4 =>
                if c3 = '"' then
                  match parseStringBody r4 with
                  | none => none
                  | some (val, r5) =>
                    match skipWs r5 with
                    | [] => none
                    | c4 :: r6 =>
                      if c4 = ',' then parseMembersF fuel (updateField m key val) r6
                      else if c4 = '}' then some (updateField m key val, r6)
                      else none
                else none
            else none
      else none

/-- `json.Unmarshal` of one transcript line into a `Message`: a single JSON
object with string members and nothing but whitespace around it. -/
def decodeLine (l : List Char) : Option Message :=
  match skipWs l with
  | [] => none
  | c :: r =>
    if c = '{' then
      match skipWs r with
      | [] => none
      | c2 :: r2 =>
        if c2 = '}' then (if skipWs r2 = [] then some ⟨"", ""⟩ else none)
        else
          match parseMembersF (r.length + 1) ⟨"", ""⟩ r with
          | some (m, rest) => if skipWs rest = [] then some m else none
          | none => none
    else none

/-- Split file contents at newlines (`bufio.ScanLines` token boundaries; the
scanner's final empty token after a trailing newline is materialised here as
an empty line, which `ReadTranscript` skips anyway). -/
def splitOnNl : List Char → List (List Char)
  | [] => [[]]
  | c :: cs =>
    if c = '\n' then [] :: splitOnNl cs
    else
      match splitOnNl cs with
      | h :: t => (c :: h) :: t
      | [] => [[c]]

/-- `bufio.ScanLines` drops one trailing carriage return from each line. -/
def dropCR (l : List Char) : List Char :=
  if l.getLast? = some '\r' then l.dropLast else l

/-- `bufio.MaxScanTokenSize`, the default 64 KiB bound on one scanner token:
`ReadTranscript` creates its scanner with the default buffer, so the bound
applies to every transcript line. -/
def maxScanTokenSize : Nat := 65536

/-- UTF-8 byte length of a character sequence (Go lengths count bytes). -/
def utf8Len (l : List Char) : Nat :=
  (l.map Char.utf8Size).sum

/-- The scan loop of `session.ReadTranscript` over the newline-split
segments of the file.  A segment whose byte length reaches
`maxScanTokenSize` cannot be tokenised: `Scan` stops, `scanner.Err()`
reports `bufio.ErrTooLong`, and the loop ends with the messages parsed so
far plus that error.  A tokenised line that is empty (after the scanner's
CR strip) is skipped; one that fails to decode makes the function return
early with no messages at all.  `.error` is that early decode-error return
(Go's `return nil, err`); `.ok (ms, e)` is normal loop termination, Go's
`return messages, scanner.Err()`. -/
def scanLoop : List (List Char) → Except String (List Message × Option String)
  | [] => .ok ([], none)
  | l :: ls =>
    if maxScanTokenSize ≤ utf8Len l then
      .ok ([], some "bufio.Scanner: token too long")
    else
      let line := dropCR l
      if line.isEmpty then scanLoop ls
      else
        match decodeLine line with
        | none => .error "decoding message"
        | some m =>
          match scanLoop ls with
          | .error e => .error e
          | .ok (ms, e2) => .ok (m :: ms, e2)

/-- `session.ReadTranscript`, returning Go's `([]Message, error)` pair: a
missing file is an empty transcript with no error; a decode failure yields
no messages and an error; hitting the scanner's token bound yields the
messages parsed before the over-long line together with `ErrTooLong`. -/
def readTranscript (file : Option (List Char)) : List Message × Option String :=
  match file with
  | none => ([], none)
  | some content =>
    match scanLoop (splitOnNl content) with
    | .error e => ([], some e)
    | .ok (ms, e) => (ms, e)


theorem hexVal_hexDigitChar (n : Nat) (h : n < 16) : hexVal (hexDigitChar n) = some n := by
  interval_cases n <;> decide

theorem parseStringBody_escapeChar (c : Char) (rest : List Char) :
    parseStringBody (escapeChar c ++ rest) =
      (parseStringBody rest).map (fun p => (c :: p.1, p.2)) := by
  have h0 : hexVal '0' = some 0 := by decide
  have hv2 : hexVal '2' = some 2 := by decide
  have hv3 : hexVal '3' = some 3 := by decide
  have hv6 : hexVal '6' = some 6 := by decide
  have hvc : hexVal 'c' = some 12 := by decide
  have hve : hexVal 'e' = some 14 := by decide
  have hv8 : hexVal '8' = some 8 := by decide
  have hv9 : hexVal '9' = some 9 := by decide
  by_cases h1 : c = '"'
  · subst h1
    rw [show escapeChar '"' = ['\\', '"'] from rfl, parseStringBody.eq_def]
    simp
  by_cases h2 : c = '\\'
  · subst h2
    rw [show escapeChar '\\' = ['\\', '\\'] from rfl, parseStringBody.eq_def]
    simp
  by_cases h3 : c = '\n'
  · subst h3
    rw [show escapeChar '\n' = ['\\', 'n'] from rfl, parseStringBody.eq_def]
    simp
  by_cases h4 : c = '\r'
  · subst h4
    rw [show escapeChar '\r' = ['\\', 'r'] from rfl, parseStringBody.eq_def]
    simp
  by_cases h5 : c = '\t'
  · subst h5
    rw [show escapeChar '\t' = ['\\', 't'] from rfl, parseStringBody.eq_def]
    simp
  by_cases h6 : c = '<'
  · subst h6
    rw [show escapeChar '<' = ['\\', 'u', '0', '0', '3', 'c'] from rfl, parseStringBody.eq_def]
    simp [h0, hv3, hvc]
  by_cases h7 : c = '>'
  · subst h7
    rw [show escapeChar '>' = ['\\', 'u', '0', '0', '3', 'e'] from rfl, parseStringBody.eq_def]
    simp [h0, hv3, hve]
  by_cases h8 : c = '&'
  · subst h8
    rw [show escapeChar '&' = ['\\', 'u', '0', '0', '2', '6'] from rfl, parseStringBody.eq_def]
    simp [h0, hv2, hv6]
  have hesc : escapeChar c =
      (if c.toNat < 32 then
        ['\\', 'u', '0', '0', hexDigitChar (c.toNat / 16), hexDigitChar (c.toNat % 16)]
       else if c.toNat = 8232 then ['\\', 'u', '2', '0', '2', '8']
       else if c.toNat = 8233 then ['\\', 'u', '2', '0', '2', '9']
       else [c]) := by
    simp only [escapeChar, if_neg h1, if_neg h2, if_neg h3, if_neg h4, if_neg h5, if_neg h6,
      if_neg h7, if_neg h8]
  rw [hesc]
  by_cases h9 : c.toNat < 32
  · rw [if_pos h9]
    have hd : c.toNat / 16 < 16 := by omega
    have hm : c.toNat % 16 < 16 := Nat.mod_lt _ (by norm_num)
    have harith : c.toNat / 16 * 16 + c.toNat % 16 = c.toNat := by omega
    rw [parseStringBody.eq_def]
    simp [h0, hexVal_hexDigitChar _ hd, hexVal_hexDigitChar _ hm, harith, Char.ofNat_toNat]
  rw [if_neg h9]
  by_cases h10 : c.toNat = 8232
  · rw [if_pos h10]
    have hc : Char.ofNat 8232 = c := by rw [← h10, Char.ofNat_toNat]
    rw [parseStringBody.eq_def]
    simp [h0, hv2, hv8, hc]
  rw [if_neg h10]
  by_cases h11 : c.toNat = 8233
  · rw [if_pos h11]
    have hc : Char.ofNat 8233 = c := by rw [← h11, Char.ofNat_toNat]
    rw [parseStringBody.eq_def]
    simp [h0, hv2, hv9, hc]
  rw [if_neg h11]
  simp only [List.singleton_append]
  rw [parseStringBody.eq_def]
  simp [h1, h2, h9]

theorem parseStringBody_encodeBodyAux (cs rest : List Char) :
    parseStringBody ((cs.foldr (fun c acc => escapeChar c ++ acc) []) ++ '"' :: rest) =
      some (cs, rest) := by
  induction cs with
  | nil => rw [parseStringBody.eq_def]; simp
  | cons c cs ih =>
    simp only [List.foldr_cons, List.append_assoc, parseStringBody_escapeChar, ih,
      Option.map_some']

theorem parseStringBody_encodeBody (s : String) (rest : List Char) :
    parseStringBody (encodeBody s ++ '"' :: rest) = some (s.data, rest) :=
  parseStringBody_encodeBodyAux s.data rest

theorem skipWs_cons (c : Char) (l : List Char) (h : isJsonWs c = false) :
    skipWs (c :: l) = c :: l := by
  simp [skipWs, List.dropWhile, h]

theorem encodeStr_append (s : String) (X : List Char) :
    encodeStr s ++ X = '"' :: (encodeBody s ++ '"' :: X) := by
  simp [encodeStr]

theorem parseMembersF_member (fuel : Nat) (m : Message) (key val : String)
    (c4 : Char) (rest : List Char) (hc4 : isJsonWs c4 = false) :
    parseMembersF (fuel + 1) m (encodeStr key ++ ':' :: (encodeStr val ++ c4 :: rest)) =
      (if c4 = ',' then parseMembersF fuel (updateField m key.data val.data) rest
       else if c4 = '}' then some (updateField m key.data val.data, rest)
       else none) := by
  rw [encodeStr_append]
  rw [parseMembersF.eq_def]
  simp [encodeStr_append, parseStringBody_encodeBody, skipWs_cons, isJsonWs, hc4]
  rw [skipWs_cons _ _ hc4]

theorem parseMembersF_two (f : Nat) (m0 : Message) (k1 v1 k2 v2 : String) :
    parseMembersF (f + 2) m0
        (encodeStr k1 ++ ':' :: (encodeStr v1 ++ ',' ::
          (encodeStr k2 ++ ':' :: (encodeStr v2 ++ '}' :: [])))) =
      some (updateField (updateField m0 k1.data v1.data) k2.data v2.data, []) := by
  rw [show f + 2 = (f + 1) + 1 from rfl]
  rw [parseMembersF_member (f + 1) m0 k1 v1 ',' _ (by decide)]
  rw [if_pos rfl]
  rw [parseMembersF_member f _ k2 v2 '}' _ (by decide)]
  simp

theorem decodeLine_obj (T : List Char) :
    decodeLine ('{' :: '"' :: T) =
      (match parseMembersF (('"' :: T).length + 1) ⟨"", ""⟩ ('"' :: T) with
       | some (p, rest) => if skipWs rest = [] then some p else none
       | none => none) := by
  rw [decodeLine.eq_def]
  rw [skipWs_cons _ _ (show isJsonWs '{' = false by decide)]
  simp only []
  rw [skipWs_cons _ _ (show isJsonWs '"' = false by decide)]
  simp

theorem decodeLine_encodeMessage (m : Message) : decodeLine (encodeMessage m) = some m := by
  simp only [encodeMessage, List.cons_append, List.append_assoc]
  rw [encodeStr_append "role"]
  rw [decodeLine_obj]
  rw [← encodeStr_append "role"]
  have hlen : 1 ≤ (encodeStr "role" ++ ':' :: (encodeStr m.role ++ ',' ::
      (encodeStr "content" ++ ':' :: (encodeStr m.content ++ '}' :: [])))).length := by
    simp [encodeStr]
  rw [show (encodeStr "role" ++ ':' :: (encodeStr m.role ++ ',' ::
      (encodeStr "content" ++ ':' :: (encodeStr m.content ++ '}' :: [])))).length + 1 =
      ((encodeStr "role" ++ ':' :: (encodeStr m.role ++ ',' ::
      (encodeStr "content" ++ ':' :: (encodeStr m.content ++ '}' :: [])))).length - 1) + 2
    from by omega]
  rw [parseMembersF_two]
  have hmk : ∀ s : String, String.mk s.data = s := fun _ => rfl
  simp [updateField, hmk, skipWs]


theorem hexDigitChar_ne_newline (n : Nat) (h : n < 16) : hexDigitChar n ≠ '\n' := by
  interval_cases n <;> decide

theorem newline_notMem_escapeChar (c : Char) : '\n' ∉ escapeChar c := by
  by_cases h1 : c = '"'
  · subst h1; decide
  by_cases h2 : c = '\\'
  · subst h2; decide
  by_cases h3 : c = '\n'
  · subst h3; decide
  by_cases h4 : c = '\r'
  · subst h4; decide
  by_cases h5 : c = '\t'
  · subst h5; decide
  by_cases h6 : c = '<'
  · subst h6; decide
  by_cases h7 : c = '>'
  · subst h7; decide
  by_cases h8 : c = '&'
  · subst h8; decide
  have hesc : escapeChar c =
      (if c.toNat < 32 then
        ['\\', 'u', '0', '0', hexDigitChar (c.toNat / 16), hexDigitChar (c.toNat % 16)]
       else if c.toNat = 8232 then ['\\', 'u', '2', '0', '2', '8']
       else if c.toNat = 8233 then ['\\', 'u', '2', '0', '2', '9']
       else [c]) := by
    simp only [escapeChar, if_neg h1, if_neg h2, if_neg h3, if_neg h4, if_neg h5, if_neg h6,
      if_neg h7, if_neg h8]
  rw [hesc]
  by_cases h9 : c.toNat < 32
  · rw [if_pos h9]
    have hd : c.toNat / 16 < 16 := by omega
    have hm : c.toNat % 16 < 16 := Nat.mod_lt _ (by norm_num)
    simp [List.mem_cons, hexDigitChar_ne_newline _ hd, hexDigitChar_ne_newline _ hm]
    refine ⟨?_, ?_⟩ <;> intro habs
    · exact hexDigitChar_ne_newline _ hd habs.symm
    · exact hexDigitChar_ne_newline _ hm habs.symm
  rw [if_neg h9]
  by_cases h10 : c.toNat = 8232
  · rw [if_pos h10]; decide
  rw [if_neg h10]
  by_cases h11 : c.toNat = 8233
  · rw [if_pos h11]; decide
  rw [if_neg h11]
  simp [List.mem_cons]
  intro habs
  exact h3 habs.symm

theorem newline_notMem_encodeBodyAux (cs : List Char) :
    '\n' ∉ cs.foldr (fun c acc => escapeChar c ++ acc) [] := by
  induction cs with
  | nil => simp
  | cons c cs ih =>
    simp only [List.foldr_cons, List.mem_append]
    rintro (h | h)
    · exact newline_notMem_escapeChar c h
    · exact ih h

theorem newline_notMem_encodeBody (s : String) : '\n' ∉ encodeBody s :=
  newline_notMem_encodeBodyAux s.data

theorem newline_notMem_encodeMessage (m : Message) : '\n' ∉ encodeMessage m := by
  simp only [encodeMessage, encodeStr, List.cons_append, List.append_assoc, List.mem_cons,
    List.mem_append]
  push_neg
  refine ⟨by decide, by decide, ?_⟩
  simp [newline_notMem_encodeBody]


theorem splitOnNl_append (l1 rest : List Char) (h : '\n' ∉ l1) :
    splitOnNl (l1 ++ '\n' :: rest) = l1 :: splitOnNl rest := by
  induction l1 with
  | nil => simp [splitOnNl]
  | cons c l ih =>
    simp only [List.mem_cons, not_or] at h
    have hc : ¬ c = '\n' := fun habs => h.1 habs.symm
    rw [List.cons_append, splitOnNl.eq_def]
    simp only [if_neg hc]
    rw [ih h.2]

theorem encodeMessage_concat (m : Message) :
    encodeMessage m =
      ('{' :: encodeStr "role" ++ ':' :: encodeStr m.role ++ ',' :: encodeStr "content" ++
        ':' :: encodeStr m.content) ++ ['}'] := by
  simp [encodeMessage, List.append_assoc]

theorem dropCR_encodeMessage (m : Message) : dropCR (encodeMessage m) = encodeMessage m := by
  unfold dropCR
  rw [encodeMessage_concat, List.getLast?_concat]
  simp

theorem encodeMessage_ne_nil (m : Message) : encodeMessage m ≠ [] := by
  simp [encodeMessage]

theorem foldl_appendMessage (M : List Message) (pre : List Char) :
    M.foldl appendMessage (some pre) =
      some (pre ++ (M.map (fun m => encodeMessage m ++ ['\n'])).flatten) := by
  induction M generalizing pre with
  | nil => simp
  | cons m M ih =>
    rw [List.foldl_cons]
    rw [show appendMessage (some pre) m = some (pre ++ encodeMessage m ++ ['\n']) from rfl]
    rw [ih]
    simp [List.append_assoc]

theorem utf8Len_append (l1 l2 : List Char) :
    utf8Len (l1 ++ l2) = utf8Len l1 + utf8Len l2 := by
  simp [utf8Len]

theorem utf8Len_replicate (n : Nat) (c : Char) :
    utf8Len (List.replicate n c) = n * c.utf8Size := by
  simp [utf8Len, List.map_replicate, List.sum_replicate, smul_eq_mul]

theorem splitOnNl_no_newline (l : List Char) (h : '\n' ∉ l) :
    splitOnNl l = [l] := by
  induction l with
  | nil => rfl
  | cons c l ih =>
    simp only [List.mem_cons, not_or] at h
    have hc : ¬ c = '\n' := fun habs => h.1 habs.symm
    rw [splitOnNl.eq_def]
    simp only [if_neg hc]
    rw [ih h.2]

theorem escapeBody_replicate_a (n : Nat) :
    (List.replicate n 'a').foldr (fun c acc => escapeChar c ++ acc) [] =
      List.replicate n 'a' := by
  induction n with
  | zero => rfl
  | succ n ih =>
    rw [List.replicate_succ, List.foldr_cons, ih,
      show escapeChar 'a' = ['a'] from rfl]
    rw [← List.replicate_succ]
    rfl

theorem utf8Len_encodeMessage_ge (m : Message) :
    utf8Len (encodeBody m.content) ≤ utf8Len (encodeMessage m) := by
  have hdecomp : encodeMessage m =
      ('{' :: encodeStr "role" ++ ':' :: encodeStr m.role ++ ',' :: encodeStr "content" ++
        [':', '"']) ++ encodeBody m.content ++ ['"', '}'] := by
    simp [encodeMessage, encodeStr, List.append_assoc]
  rw [hdecomp, utf8Len_append, utf8Len_append]
  omega

theorem scanLoop_encodeAll (M : List Message)
    (hsize : ∀ m ∈ M, utf8Len (encodeMessage m) < maxScanTokenSize) :
    scanLoop (splitOnNl ((M.map (fun m => encodeMessage m ++ ['\n'])).flatten)) =
      .ok (M, none) := by
  induction M with
  | nil => rfl
  | cons m M ih =>
    have h1 : ((m :: M).map (fun x => encodeMessage x ++ ['\n'])).flatten
        = encodeMessage m ++ '\n' :: (M.map (fun x => encodeMessage x ++ ['\n'])).flatten := by
      simp [List.append_assoc]
    rw [h1, splitOnNl_append _ _ (newline_notMem_encodeMessage m)]
    have hm : ¬ (maxScanTokenSize ≤ utf8Len (encodeMessage m)) := by
      have := hsize m (by simp)
      omega
    rw [scanLoop.eq_def]
    simp [hm, dropCR_encodeMessage, decodeLine_encodeMessage, encodeMessage_ne_nil,
      ih (fun x hx => hsize x (by simp [hx]))]

/-- C6 (amended): appending a message sequence to a fresh transcript and
reading it back yields exactly that sequence with no error, for every
sequence whose encoded lines each stay below the scanner s 64 KiB token
bound; reading a missing transcript file yields an empty list and no error.
(Without the size bound the round trip fails: see
`transcript_roundtrip_counterexample`.) -/
theorem transcript_roundtrip (M : List Message)
    (hsize : ∀ m ∈ M, utf8Len (encodeMessage m) < maxScanTokenSize) :
    readTranscript (M.foldl appendMessage none) = (M, none) ∧
    readTranscript none = (([] : List Message), none) := by
  refine ⟨?_, rfl⟩
  cases M with
  | nil => rfl
  | cons m M =>
    rw [List.foldl_cons]
    rw [show appendMessage none m = some (encodeMessage m ++ ['\n']) from rfl]
    rw [foldl_appendMessage]
    have h1 : (encodeMessage m ++ ['\n']) ++ (M.map (fun x => encodeMessage x ++ ['\n'])).flatten
        = ((m :: M).map (fun x => encodeMessage x ++ ['\n'])).flatten := by
      simp [List.append_assoc]
    rw [h1]
    have hscan := scanLoop_encodeAll (m :: M) hsize
    simp only [readTranscript, hscan]

/-- Witness for `transcript_roundtrip` on a concrete two-message sequence
whose lines are far below the scanner bound. -/
theorem transcript_roundtrip_witness :
    readTranscript
        ([(⟨"user", "Hi"⟩ : Message), ⟨"assistant", "Hello!"⟩].foldl appendMessage none) =
      ([(⟨"user", "Hi"⟩ : Message), ⟨"assistant", "Hello!"⟩], none) ∧
    readTranscript none = (([] : List Message), none) :=
  transcript_roundtrip [⟨"user", "Hi"⟩, ⟨"assistant", "Hello!"⟩] (by decide)

theorem encodeMessage_isEmpty (m : Message) : (encodeMessage m).isEmpty = false := rfl

theorem scanLoop_cons_toolong (l : List Char) (ls : List (List Char))
    (h : maxScanTokenSize ≤ utf8Len l) :
    scanLoop (l :: ls) = .ok ([], some "bufio.Scanner: token too long") := by
  rw [scanLoop.eq_def]
  simp only [if_pos h]

theorem scanLoop_cons_decoded (l : List Char) (ls : List (List Char)) (m : Message)
    (h1 : ¬ maxScanTokenSize ≤ utf8Len l) (h2 : ¬ (dropCR l).isEmpty)
    (h3 : decodeLine (dropCR l) = some m) :
    scanLoop (l :: ls) =
      (match scanLoop ls with
       | .error e => .error e
       | .ok (ms, e2) => .ok (m :: ms, e2)) := by
  rw [scanLoop.eq_def]
  simp only [if_neg h1, if_neg h2, h3]

theorem readTranscript_single_oversized (m : Message)
    (hbound : maxScanTokenSize ≤ utf8Len (encodeMessage m)) :
    readTranscript (some (encodeMessage m ++ ['\n'])) =
      ([], some "bufio.Scanner: token too long") := by
  have hsplit : splitOnNl (encodeMessage m ++ ['\n']) = [encodeMessage m, []] := by
    rw [splitOnNl_append _ _ (newline_notMem_encodeMessage m)]
    rfl
  simp only [readTranscript, hsplit, scanLoop_cons_toolong _ _ hbound]

theorem readTranscript_good_then_oversized (content : List Char) (m : Message)
    (bad : List Char)
    (hsplit : splitOnNl content = [encodeMessage m, bad])
    (hgoodlen : ¬ maxScanTokenSize ≤ utf8Len (encodeMessage m))
    (hbadlen : maxScanTokenSize ≤ utf8Len bad) :
    readTranscript (some content) = ([m], some "bufio.Scanner: token too long") := by
  have hempty : ¬ (dropCR (encodeMessage m)).isEmpty := by
    rw [dropCR_encodeMessage, encodeMessage_isEmpty]
    exact Bool.false_ne_true
  have hdecode : decodeLine (dropCR (encodeMessage m)) = some m := by
    rw [dropCR_encodeMessage]
    exact decodeLine_encodeMessage _
  have hscan : scanLoop [encodeMessage m, bad] =
      .ok ([m], some "bufio.Scanner: token too long") := by
    rw [scanLoop_cons_decoded _ _ _ hgoodlen hempty hdecode,
      scanLoop_cons_toolong _ _ hbadlen]
  simp only [readTranscript, hsplit, hscan]

/-- Counterexample to C6 as stated: a single message whose content is 64 Ki
of ASCII appends fine, but its transcript line reaches
`bufio.MaxScanTokenSize`, so reading back yields no messages and the
token-too-long error instead of the original sequence. -/
theorem transcript_roundtrip_counterexample :
    let m : Message := ⟨"user", String.mk (List.replicate maxScanTokenSize 'a')⟩
    readTranscript ([m].foldl appendMessage none) =
      ([], some "bufio.Scanner: token too long") ∧
    readTranscript ([m].foldl appendMessage none) ≠ ([m], none) := by
  intro m
  have hbody : utf8Len (encodeBody m.content) = maxScanTokenSize := by
    rw [show encodeBody m.content =
        (List.replicate maxScanTokenSize 'a').foldr (fun c acc => escapeChar c ++ acc) []
      from rfl]
    rw [escapeBody_replicate_a, utf8Len_replicate, show Char.utf8Size 'a' = 1 from rfl]
    omega
  have hbound : maxScanTokenSize ≤ utf8Len (encodeMessage m) := by
    have := utf8Len_encodeMessage_ge m
    omega
  have hrt : readTranscript ([m].foldl appendMessage none) =
      ([], some "bufio.Scanner: token too long") :=
    readTranscript_single_oversized m hbound
  refine ⟨hrt, ?_⟩
  intro habs
  rw [hrt] at habs
  have hsnd := congrArg Prod.snd habs
  exact Option.some_ne_none _ hsnd

theorem scanLoop_error_of_bad (ls : List (List Char))
    (hsize : ∀ l ∈ ls, utf8Len l < maxScanTokenSize)
    (h : ∃ l ∈ ls, ¬ (dropCR l).isEmpty ∧ decodeLine (dropCR l) = none) :
    scanLoop ls = .error "decoding message" := by
  induction ls with
  | nil => simp at h
  | cons l ls ih =>
    obtain ⟨w, hw, hne, hnone⟩ := h
    have hlen : ¬ (maxScanTokenSize ≤ utf8Len l) := by
      have := hsize l (by simp)
      omega
    by_cases hl : (dropCR l).isEmpty
    · have hmem : w ∈ ls := by
        rcases List.mem_cons.mp hw with rfl | hmem
        · exact absurd hl hne
        · exact hmem
      rw [scanLoop.eq_def]
      simp only [if_neg hlen, if_pos hl]
      exact ih (fun x hx => hsize x (by simp [hx])) ⟨w, hmem, hne, hnone⟩
    · cases hdl : decodeLine (dropCR l) with
      | none => rw [scanLoop.eq_def]; simp [hlen, hl, hdl]
      | some mm =>
        have hmem : w ∈ ls := by
          rcases List.mem_cons.mp hw with rfl | hmem
          · rw [hnone] at hdl; cases hdl
          · exact hmem
        rw [scanLoop.eq_def]
        simp [hlen, hl, hdl, ih (fun x hx => hsize x (by simp [hx])) ⟨w, hmem, hne, hnone⟩]

theorem scanLoop_skip_empty (ls1 ls2 : List (List Char)) :
    scanLoop (ls1 ++ [] :: ls2) = scanLoop (ls1 ++ ls2) := by
  induction ls1 with
  | nil =>
    rw [List.nil_append, List.nil_append, scanLoop.eq_def]
    simp [dropCR, utf8Len, maxScanTokenSize]
  | cons l ls ih =>
    rw [List.cons_append, List.cons_append, scanLoop.eq_def]
    conv_rhs => rw [scanLoop.eq_def]
    simp only [ih]

/-- C10 (amended): for a transcript file all of whose lines stay below the
scanner s 64 KiB token bound, one non-empty line that does not decode as a
`Message` makes the whole transcript unreadable — `ReadTranscript` returns
an error and no messages at all — while empty lines are silently skipped.
(Without the size bound the no-messages half fails: see
`readTranscript_corrupt_line_counterexample`.) -/
theorem readTranscript_corrupt_line (content : List Char)
    (hsize : ∀ l ∈ splitOnNl content, utf8Len l < maxScanTokenSize)
    (h : ∃ l ∈ splitOnNl content, ¬ (dropCR l).isEmpty ∧ decodeLine (dropCR l) = none) :
    readTranscript (some content) = ([], some "decoding message") ∧
    (∀ msgs : List Message, ∀ e : Option String,
        readTranscript (some content) = (msgs, e) → msgs = [] ∧ e ≠ none) ∧
    (∀ ls1 ls2 : List (List Char), scanLoop (ls1 ++ [] :: ls2) = scanLoop (ls1 ++ ls2)) := by
  have h1 : scanLoop (splitOnNl content) = .error "decoding message" :=
    scanLoop_error_of_bad _ hsize h
  have h2 : readTranscript (some content) = ([], some "decoding message") := by
    simp only [readTranscript, h1]
  refine ⟨h2, ?_, scanLoop_skip_empty⟩
  intro msgs e habs
  rw [h2] at habs
  obtain ⟨hm, he⟩ := Prod.mk.inj habs.symm
  refine ⟨hm, ?_⟩
  rw [he]
  exact Option.some_ne_none _

/-- Witness for `readTranscript_corrupt_line` on a transcript whose single
short line is not JSON. -/
theorem readTranscript_corrupt_line_witness :
    readTranscript (some ("not json".data)) = ([], some "decoding message") :=
  (readTranscript_corrupt_line "not json".data (by decide) (by decide)).1

/-- Counterexample to C10 as stated: a valid line followed by an over-long
corrupt line makes `ReadTranscript` return the already-parsed messages
together with the token-too-long error — an error, but not "no messages at
all". -/
theorem readTranscript_corrupt_line_counterexample :
    let content :=
      encodeMessage ⟨"user", "a"⟩ ++ '\n' :: List.replicate maxScanTokenSize 'x'
    (∃ l ∈ splitOnNl content, ¬ (dropCR l).isEmpty ∧ decodeLine (dropCR l) = none) ∧
    readTranscript (some content) =
      ([⟨"user", "a"⟩], some "bufio.Scanner: token too long") ∧
    (readTranscript (some content)).1 ≠ [] := by
  intro content
  have hnl : ('\n') ∉ List.replicate maxScanTokenSize 'x' := by
    intro hmem
    exact absurd (List.eq_of_mem_replicate hmem) (by decide)
  have hsplit : splitOnNl content =
      [encodeMessage ⟨"user", "a"⟩, List.replicate maxScanTokenSize 'x'] := by
    rw [show content =
        encodeMessage ⟨"user", "a"⟩ ++ '\n' :: List.replicate maxScanTokenSize 'x' from rfl]
    rw [splitOnNl_append _ _ (newline_notMem_encodeMessage _), splitOnNl_no_newline _ hnl]
  have hlast : (List.replicate maxScanTokenSize 'x').getLast? = some 'x' := by
    rw [show maxScanTokenSize = 65535 + 1 from rfl, List.replicate_succ',
      List.getLast?_concat]
  have hdc : dropCR (List.replicate maxScanTokenSize 'x') =
      List.replicate maxScanTokenSize 'x' := by
    unfold dropCR
    rw [hlast, if_neg (by decide : ¬ (some 'x' = some '\x0d'))]
  have hbadne : ¬ (dropCR (List.replicate maxScanTokenSize 'x')).isEmpty := by
    rw [hdc, show (List.replicate maxScanTokenSize 'x').isEmpty = false from rfl]
    exact Bool.false_ne_true
  have hbaddec : decodeLine (dropCR (List.replicate maxScanTokenSize 'x')) = none := by
    rw [hdc]
    rfl
  have htoolong : maxScanTokenSize ≤ utf8Len (List.replicate maxScanTokenSize 'x') := by
    rw [utf8Len_replicate, show Char.utf8Size 'x' = 1 from rfl]
    omega
  have hgoodlen : ¬ (maxScanTokenSize ≤ utf8Len (encodeMessage ⟨"user", "a"⟩)) := by
    decide
  have hrt : readTranscript (some content) =
      ([⟨"user", "a"⟩], some "bufio.Scanner: token too long") :=
    readTranscript_good_then_oversized content ⟨"user", "a"⟩
      (List.replicate maxScanTokenSize 'x') hsplit hgoodlen htoolong
  refine ⟨?_, hrt, ?_⟩
  · exact ⟨List.replicate maxScanTokenSize 'x',
      by rw [hsplit]; exact List.Mem.tail _ (List.Mem.head _), hbadne, hbaddec⟩
  · rw [hrt]
    intro habs
    exact List.cons_ne_nil _ _ habs

/-! ## Streaming session controller (`internal/tui/tui.go`)

The Bubble Tea `Model.Update` loop is embedded as a step function
`step : TuiState → Event → TuiState × List TuiCmd` over the fields of
`tui.Model` that carry conversational state.  Commands returned to the
runtime (starting a stream, waiting for the next delta, re-arming the
heartbeat timer) are reified in `TuiCmd`; purely visual commands (spinner
ticks, viewport updates) are elided.  The session store is modelled by the
`transcript` field, the append-only log of messages the controller has
committed through `SessionStore.Append` (`Options.Session` and
`Options.SessionStore` are assumed configured, as in normal operation). -/

/-- The prompt-token part of `provider.Usage` read by the controller. -/
structure Usage where
  promptTokens : Nat
  deriving Repr, DecidableEq

/-- `tui.displayMessage`. -/
structure DisplayMessage where
  role : String
  content : String
  deriving Repr, DecidableEq

/-- The events `Model.Update` handles that bear on conversation state:
the Enter key (with the textarea contents), `StreamStartedMsg`,
`StreamDeltaMsg`, `StreamDoneMsg`, `StreamErrMsg` and `HeartbeatTickMsg`. -/
inductive Event where
  | keyEnter (input : String)
  | streamStarted
  | streamDelta (content : String)
  | streamDone (usage : Option Usage)
  | streamErr (e : String)
  | heartbeatTick
  deriving Repr, DecidableEq

/-- Commands the update loop hands back to the Bubble Tea runtime. -/
inductive TuiCmd where
  | startStream
  | waitForDelta
  | scheduleHeartbeat
  | dispatchCommand (input : String)
  deriving Repr, DecidableEq

/-- The conversational state of `tui.Model`. -/
structure TuiState where
  messages : List DisplayMessage
  transcript : List Message
  streaming : Bool
  waiting : Bool
  streamContent : String
  bootstrapStream : Bool
  heartbeatStream : Bool
  heartbeatEnabled : Bool
  currentNumCtx : Nat
  maxNumCtx : Nat
  err : Option String
  deriving Repr, DecidableEq

/-- `tui.ctxTiers`, the fixed ascending ladder of context sizes. -/
def ctxTiers : List Nat := [4096, 8192, 16384, 32768]

/-- `threshold := int(float64(m.currentNumCtx) * 0.6)` from `Model.Update`.
For each of the four tier values the Go float64 computation truncates to
exactly `⌊current * 3 / 5⌋`, which is how it is embedded here. -/
def ctxThreshold (current : Nat) : Nat :=
  current * 3 / 5

/-- Whether `pat` is an initial segment of the second list. -/
def leadEq : List Char → List Char → Bool
  | [], _ => true
  | _ :: _, [] => false
  | a :: pa, b :: tb => a == b && leadEq pa tb

/-- Whether `pat` occurs as a contiguous subsequence. -/
def containsSeq (pat : List Char) : List Char → Bool
  | [] => leadEq pat []
  | c :: rest => leadEq pat (c :: rest) || containsSeq pat rest

/-- `strings.Contains(m.streamContent, "HEARTBEAT_SKIP")` (the sentinel is
ASCII, so byte-wise and character-wise containment coincide). -/
def containsSkip (s : String) : Bool :=
  containsSeq "HEARTBEAT_SKIP".data s.data

/-- The informational notice shown when the context window grows. -/
def ctxExpandNote (t : Nat) : String :=
  "Context expanded to " ++ toString t ++
    " tokens (conversation is growing). The next response may take a moment while the model reloads."

/-- The adaptive-context block of the `StreamDoneMsg` branch: on reported
prompt-token usage above the threshold, advance to the first ladder tier
strictly above the current one and within the ceiling, appending the
informational notice; otherwise leave the state unchanged. -/
def applyUsage (s : TuiState) (usage : Option Usage) : TuiState :=
  match usage with
  | none => s
  | some u =>
    if 0 < u.promptTokens ∧ ctxThreshold s.currentNumCtx < u.promptTokens then
      match ctxTiers.find? (fun t => s.currentNumCtx < t && t ≤ s.maxNumCtx) with
      | some t =>
        { s with currentNumCtx := t,
                 messages := s.messages ++ [⟨"system", ctxExpandNote t⟩] }
      | none => s
    else s

/-- The flag resets at the top of the `StreamDoneMsg` branch: the turn is no
longer in flight, and the heartbeat/bootstrap markers are cleared. -/
def streamDoneFlags (s : TuiState) : TuiState :=
  { s with streaming := false, waiting := false,
           heartbeatStream := false, bootstrapStream := false }

/-- `Model.handleSubmit`: trim the input; ignore empty input; hand slash
commands to the synchronous command dispatcher (whose handlers never touch
the streaming flags, the transcript commits of a turn, or the context tier —
their effects are outside this model, reified as `dispatchCommand`);
otherwise commit the user message, enter the streaming state, start the
stream and reset the heartbeat timer. -/
def handleSubmit (s : TuiState) (input0 : String) : TuiState × List TuiCmd :=
  let input := input0.trim
  if input = "" then (s, [])
  else if input.startsWith "/" then (s, [.dispatchCommand input])
  else
    ({ s with
        messages := s.messages ++ [⟨"user", input⟩],
        transcript := s.transcript ++ [⟨"user", input⟩],
        streaming := true, waiting := true, streamContent := "" },
     .startStream :: (if s.heartbeatEnabled then [.scheduleHeartbeat] else []))

/-- The conversational core of `Model.Update`.  `streamDone` mirrors the
source order: clear the in-flight flags, drop the bootstrap marker, evaluate
the context ladder, then either discard an empty buffer, silently discard a
heartbeat reply containing the skip sentinel, or commit the buffer as one
assistant message to display and transcript; heartbeat turns re-arm the
timer while heartbeats stay enabled. -/
def step (s : TuiState) (e : Event) : TuiState × List TuiCmd :=
  match e with
  | .keyEnter input =>
    if s.streaming then (s, []) else handleSubmit s input
  | .streamStarted => ({ s with waiting := true }, [.waitForDelta])
  | .streamDelta c =>
    ({ s with waiting := false, streamContent := s.streamContent ++ c }, [.waitForDelta])
  | .streamDone usage =>
    let wasHeartbeat := s.heartbeatStream
    let s1 := streamDoneFlags s
    let s2 := applyUsage s1 usage
    if s2.streamContent = "" then
      (s2, if wasHeartbeat && s2.heartbeatEnabled then [.scheduleHeartbeat] else [])
    else if wasHeartbeat && containsSkip s2.streamContent then
      ({ s2 with streamContent := "" },
       if s2.heartbeatEnabled then [.scheduleHeartbeat] else [])
    else
      ({ s2 with
          messages := s2.messages ++ [⟨"assistant", s2.streamContent⟩],
          transcript := s2.transcript ++ [⟨"assistant", s2.streamContent⟩],
          streamContent := "" },
       if wasHeartbeat && s2.heartbeatEnabled then [.scheduleHeartbeat] else [])
  | .streamErr e =>
    ({ s with streaming := false, waiting := false, err := some e,
              messages := s.messages ++ [⟨"system", "Error: " ++ e⟩],
              streamContent := "" }, [])
  | .heartbeatTick =>
    if s.streaming || !s.heartbeatEnabled then (s, [])
    else ({ s with streaming := true, streamContent := "", heartbeatStream := true },
          [.startStream])

/-- `maxCtx := opts.MaxNumCtx; if maxCtx <= 0 { maxCtx = 32768 }` from
`tui.New`: the effective context ceiling. -/
def effectiveMaxCtx (cfg : Int) : Nat :=
  if cfg ≤ 0 then 32768 else cfg.toNat

/-- The conversational state produced by `tui.New`: no history, not
streaming, the smallest ladder tier, the effective ceiling. -/
def initState (heartbeatEnabled : Bool) (cfgMaxNumCtx : Int) : TuiState :=
  { messages := [], transcript := [], streaming := false, waiting := false,
    streamContent := "", bootstrapStream := false, heartbeatStream := false,
    heartbeatEnabled := heartbeatEnabled,
    currentNumCtx := ctxTiers.headD 0,
    maxNumCtx := effectiveMaxCtx cfgMaxNumCtx,
    err := none }

/-- Run a sequence of events through the update loop. -/
def run (s : TuiState) (events : List Event) : TuiState :=
  events.foldl (fun s e => (step s e).1) s

theorem applyUsage_transcript (s : TuiState) (u : Option Usage) :
    (applyUsage s u).transcript = s.transcript := by
  cases u with
  | none => rfl
  | some u =>
    simp only [applyUsage]
    split
    · split <;> rfl
    · rfl

theorem applyUsage_streamContent (s : TuiState) (u : Option Usage) :
    (applyUsage s u).streamContent = s.streamContent := by
  cases u with
  | none => rfl
  | some u =>
    simp only [applyUsage]
    split
    · split <;> rfl
    · rfl

theorem applyUsage_heartbeatEnabled (s : TuiState) (u : Option Usage) :
    (applyUsage s u).heartbeatEnabled = s.heartbeatEnabled := by
  cases u with
  | none => rfl
  | some u =>
    simp only [applyUsage]
    split
    · split <;> rfl
    · rfl

theorem applyUsage_maxNumCtx (s : TuiState) (u : Option Usage) :
    (applyUsage s u).maxNumCtx = s.maxNumCtx := by
  cases u with
  | none => rfl
  | some u =>
    simp only [applyUsage]
    split
    · split <;> rfl
    · rfl

theorem applyUsage_messages (s : TuiState) (u : Option Usage) :
    (applyUsage s u).messages = s.messages ∨
      ∃ note : DisplayMessage, note.role = "system" ∧
        (applyUsage s u).messages = s.messages ++ [note] := by
  cases u with
  | none => exact Or.inl rfl
  | some u =>
    simp only [applyUsage]
    split
    · split
      · exact Or.inr ⟨_, rfl, rfl⟩
      · exact Or.inl rfl
    · exact Or.inl rfl

theorem applyUsage_currentNumCtx_cases (s : TuiState) (u : Option Usage) :
    (applyUsage s u).currentNumCtx = s.currentNumCtx ∨
      ((applyUsage s u).currentNumCtx ∈ ctxTiers ∧
       s.currentNumCtx < (applyUsage s u).currentNumCtx ∧
       (applyUsage s u).currentNumCtx ≤ s.maxNumCtx) := by
  cases u with
  | none => exact Or.inl rfl
  | some u =>
    simp only [applyUsage]
    split
    · rename_i hcond
      split
      · rename_i t hf
        right
        have hmem := List.mem_of_find?_eq_some hf
        have hp := List.find?_some hf
        simp only [Bool.and_eq_true, decide_eq_true_eq] at hp
        exact ⟨hmem, hp.1, hp.2⟩
      · exact Or.inl rfl
    · exact Or.inl rfl


theorem step_streamDone_skip (s : TuiState) (usage : Option Usage)
    (hhb : s.heartbeatStream = true)
    (hne : s.streamContent ≠ "")
    (hskip : containsSkip s.streamContent = true) :
    step s (.streamDone usage) =
      ({ applyUsage (streamDoneFlags s) usage with streamContent := "" },
       if s.heartbeatEnabled then [TuiCmd.scheduleHeartbeat] else []) := by
  have hsc : (applyUsage (streamDoneFlags s) usage).streamContent = s.streamContent := by
    rw [applyUsage_streamContent]
    rfl
  have hhe : (applyUsage (streamDoneFlags s) usage).heartbeatEnabled = s.heartbeatEnabled := by
    rw [applyUsage_heartbeatEnabled]
    rfl
  simp only [step, hhb, hsc, hhe, Bool.true_and]
  rw [if_neg hne, if_pos hskip]

/-- C8: a heartbeat turn whose non-empty reply contains the skip sentinel is
discarded silently. -/
theorem heartbeat_skip_discards (s : TuiState) (usage : Option Usage)
    (hhb : s.heartbeatStream = true)
    (hne : s.streamContent ≠ "")
    (hskip : containsSkip s.streamContent = true) :
    let out := step s (.streamDone usage)
    out.1.transcript = s.transcript ∧
    (out.1.messages = s.messages ∨
      ∃ note : DisplayMessage, note.role = "system" ∧
        out.1.messages = s.messages ++ [note]) ∧
    (∀ dm ∈ out.1.messages, dm ∈ s.messages ∨ dm.role = "system") ∧
    out.1.streamContent = "" ∧
    out.2 = (if s.heartbeatEnabled then [TuiCmd.scheduleHeartbeat] else []) := by
  intro out
  have hstep : out = ({ applyUsage (streamDoneFlags s) usage with streamContent := "" },
      if s.heartbeatEnabled then [TuiCmd.scheduleHeartbeat] else []) :=
    step_streamDone_skip s usage hhb hne hskip
  have hmsg := applyUsage_messages (streamDoneFlags s) usage
  rw [hstep]
  refine ⟨?_, ?_, ?_, rfl, rfl⟩
  · show (applyUsage (streamDoneFlags s) usage).transcript = s.transcript
    rw [applyUsage_transcript]
    rfl
  · exact hmsg
  · intro dm hdm
    rcases hmsg with hsame | ⟨note, hrole, happ⟩
    · rw [show ({ applyUsage (streamDoneFlags s) usage with
          streamContent := "" } : TuiState).messages =
          (applyUsage (streamDoneFlags s) usage).messages from rfl, hsame] at hdm
      exact Or.inl hdm
    · rw [show ({ applyUsage (streamDoneFlags s) usage with
          streamContent := "" } : TuiState).messages =
          (applyUsage (streamDoneFlags s) usage).messages from rfl, happ] at hdm
      rcases List.mem_append.mp hdm with h | h
      · exact Or.inl h
      · right
        rw [List.mem_singleton.mp h, hrole]

/-- Witness for `heartbeat_skip_discards` on a concrete heartbeat turn whose
reply is exactly the skip sentinel. -/
theorem heartbeat_skip_discards_witness :
    let s : TuiState :=
      { initState true 32768 with streaming := true, heartbeatStream := true,
                                  streamContent := "HEARTBEAT_SKIP" }
    let out := step s (.streamDone (some ⟨100⟩))
    out.1.transcript = s.transcript ∧
    (out.1.messages = s.messages ∨
      ∃ note : DisplayMessage, note.role = "system" ∧
        out.1.messages = s.messages ++ [note]) ∧
    (∀ dm ∈ out.1.messages, dm ∈ s.messages ∨ dm.role = "system") ∧
    out.1.streamContent = "" ∧
    out.2 = (if s.heartbeatEnabled then [TuiCmd.scheduleHeartbeat] else []) :=
  heartbeat_skip_discards _ (some ⟨100⟩) rfl (by decide) (by decide)


/-- C7: a stream error discards the partial buffer without committing it —
the transcript is untouched, no assistant message is added to the display
history or the transcript, the error is surfaced as a visible system notice,
and the turn ends with no further command. -/
theorem stream_error_discards_buffer (s : TuiState) (e : String) :
    let out := step s (.streamErr e)
    out.1.transcript = s.transcript ∧
    out.1.messages = s.messages ++ [⟨"system", "Error: " ++ e⟩] ∧
    out.1.streamContent = "" ∧
    out.1.err = some e ∧
    out.1.streaming = false ∧
    out.2 = [] :=
  ⟨rfl, rfl, rfl, rfl, rfl, rfl⟩

/-- C9: while a turn is in flight a submit is rejected outright (state
unchanged, nothing queued, no stream started), and a heartbeat tick while
streaming or with heartbeats disabled is a no-op — the controller keeps at
most one turn in flight. -/
theorem single_turn_in_flight (s : TuiState) (input : String) :
    (s.streaming = true → step s (.keyEnter input) = (s, [])) ∧
    (s.streaming = true ∨ s.heartbeatEnabled = false → step s .heartbeatTick = (s, [])) := by
  constructor
  · intro h
    simp [step, h]
  · intro h
    rcases h with h | h <;> simp [step, h]

/-- Witness for `single_turn_in_flight` on a concrete mid-stream state. -/
theorem single_turn_in_flight_witness :
    let s : TuiState := { initState true 32768 with streaming := true }
    step s (.keyEnter "hello") = (s, []) ∧ step s .heartbeatTick = (s, []) :=
  ⟨(single_turn_in_flight { initState true 32768 with streaming := true } "hello").1 rfl,
   (single_turn_in_flight { initState true 32768 with streaming := true } "hello").2
     (Or.inl rfl)⟩

theorem step_streamDone_currentNumCtx (s : TuiState) (usage : Option Usage) :
    (step s (.streamDone usage)).1.currentNumCtx =
      (applyUsage (streamDoneFlags s) usage).currentNumCtx := by
  simp only [step]
  split
  · rfl
  · split <;> rfl

theorem handleSubmit_tier (s : TuiState) (input : String) :
    (handleSubmit s input).1.currentNumCtx = s.currentNumCtx ∧
    (handleSubmit s input).1.maxNumCtx = s.maxNumCtx := by
  simp only [handleSubmit]
  split_ifs <;> exact ⟨rfl, rfl⟩

theorem step_tier (s : TuiState) (e : Event) :
    s.currentNumCtx ≤ (step s e).1.currentNumCtx ∧
    (step s e).1.maxNumCtx = s.maxNumCtx ∧
    (s.currentNumCtx ≤ s.maxNumCtx → (step s e).1.currentNumCtx ≤ s.maxNumCtx) := by
  cases e with
  | keyEnter input =>
    simp only [step]
    split
    · exact ⟨le_refl _, rfl, fun h => h⟩
    · rcases handleSubmit_tier s input with ⟨h1, h2⟩
      rw [h1, h2]
      exact ⟨le_refl _, rfl, fun h => h⟩
  | streamStarted => exact ⟨le_refl _, rfl, fun h => h⟩
  | streamDelta c => exact ⟨le_refl _, rfl, fun h => h⟩
  | streamErr e => exact ⟨le_refl _, rfl, fun h => h⟩
  | heartbeatTick =>
    simp only [step]
    split
    · exact ⟨le_refl _, rfl, fun h => h⟩
    · exact ⟨le_refl _, rfl, fun h => h⟩
  | streamDone usage =>
    have hcur := step_streamDone_currentNumCtx s usage
    have hmax : (step s (.streamDone usage)).1.maxNumCtx = s.maxNumCtx := by
      simp only [step]
      split
      · rw [show (applyUsage (streamDoneFlags s) usage).maxNumCtx = s.maxNumCtx from
          (applyUsage_maxNumCtx _ _)]
      · split
        · rw [show ({ applyUsage (streamDoneFlags s) usage with streamContent := "" } :
              TuiState).maxNumCtx = (applyUsage (streamDoneFlags s) usage).maxNumCtx from rfl,
            applyUsage_maxNumCtx]
          rfl
        · rw [show (applyUsage (streamDoneFlags s) usage).maxNumCtx = s.maxNumCtx from
            (applyUsage_maxNumCtx _ _)]
    rcases applyUsage_currentNumCtx_cases (streamDoneFlags s) usage with hsame | ⟨hmem, hlt, hle⟩
    · rw [hcur, hsame]
      exact ⟨le_refl _, hmax, fun h => h⟩
    · rw [hcur]
      exact ⟨le_of_lt hlt, hmax, fun _ => hle⟩

theorem find?_min_of_pairwise (l : List Nat) (p : Nat → Bool) (x : Nat)
    (hl : l.Pairwise (· ≤ ·)) (hx : l.find? p = some x) :
    ∀ y ∈ l, p y = true → x ≤ y := by
  induction l with
  | nil => simp at hx
  | cons a l ih =>
    by_cases hpa : p a
    · rw [List.find?_cons_of_pos _ hpa] at hx
      obtain rfl : a = x := Option.some.inj hx
      intro y hy hpy
      rcases List.mem_cons.mp hy with rfl | hmem
      · exact le_refl _
      · exact (List.pairwise_cons.mp hl).1 y hmem
    · rw [List.find?_cons_of_neg _ hpa] at hx
      intro y hy hpy
      rcases List.mem_cons.mp hy with rfl | hmem
      · exact absurd hpy hpa
      · exact ih (List.pairwise_cons.mp hl).2 hx y hmem hpy

theorem applyUsage_grow (s : TuiState) (u : Usage)
    (h : 0 < u.promptTokens ∧ ctxThreshold s.currentNumCtx < u.promptTokens) :
    (applyUsage s (some u)).currentNumCtx =
      (match ctxTiers.find? (fun t => s.currentNumCtx < t && t ≤ s.maxNumCtx) with
       | some t => t
       | none => s.currentNumCtx) := by
  simp only [applyUsage, if_pos h]
  split <;> rfl

theorem applyUsage_nogrow (s : TuiState) (u : Usage)
    (h : ¬ (0 < u.promptTokens ∧ ctxThreshold s.currentNumCtx < u.promptTokens)) :
    (applyUsage s (some u)).currentNumCtx = s.currentNumCtx := by
  simp only [applyUsage, if_neg h]

/-- C4: after a successfully completed turn reporting prompt-token usage, the
tier advances to the smallest defined tier strictly above the current one and
within the ceiling exactly when `promptTokens` exceeds the 0.6 threshold (and
such a tier exists), and stays unchanged otherwise; in particular 3000 prompt
tokens at tier 4096 advance to 8192, and 3000 at tier 8192 do not advance. -/
theorem ctx_tier_transition (s : TuiState) (u : Usage) (hu : 0 < u.promptTokens) :
    (ctxThreshold s.currentNumCtx < u.promptTokens →
      ((∃ t ∈ ctxTiers, s.currentNumCtx < t ∧ t ≤ s.maxNumCtx) →
        (step s (.streamDone (some u))).1.currentNumCtx ∈ ctxTiers ∧
        s.currentNumCtx < (step s (.streamDone (some u))).1.currentNumCtx ∧
        (step s (.streamDone (some u))).1.currentNumCtx ≤ s.maxNumCtx ∧
        ∀ t ∈ ctxTiers, s.currentNumCtx < t → t ≤ s.maxNumCtx →
          (step s (.streamDone (some u))).1.currentNumCtx ≤ t) ∧
      ((∀ t ∈ ctxTiers, ¬ (s.currentNumCtx < t ∧ t ≤ s.maxNumCtx)) →
        (step s (.streamDone (some u))).1.currentNumCtx = s.currentNumCtx)) ∧
    (u.promptTokens ≤ ctxThreshold s.currentNumCtx →
      (step s (.streamDone (some u))).1.currentNumCtx = s.currentNumCtx) ∧
    (step (initState false 32768) (.streamDone (some ⟨3000⟩))).1.currentNumCtx = 8192 ∧
    (step { initState false 32768 with currentNumCtx := 8192 }
        (.streamDone (some ⟨3000⟩))).1.currentNumCtx = 8192 := by
  have hcur := step_streamDone_currentNumCtx s (some u)
  refine ⟨?_, ?_, by decide, by decide⟩
  · intro hth
    have hcond : 0 < u.promptTokens ∧
        ctxThreshold (streamDoneFlags s).currentNumCtx < u.promptTokens := ⟨hu, hth⟩
    have hgrow := applyUsage_grow (streamDoneFlags s) u hcond
    constructor
    · rintro ⟨t0, ht0mem, ht0a, ht0b⟩
      cases hf : ctxTiers.find?
          (fun t => (streamDoneFlags s).currentNumCtx < t &&
            t ≤ (streamDoneFlags s).maxNumCtx) with
      | none =>
        exfalso
        have hnone := List.find?_eq_none.mp hf t0 ht0mem
        simp only [Bool.and_eq_true, decide_eq_true_eq] at hnone
        exact hnone ⟨ht0a, ht0b⟩
      | some t =>
        have hmem := List.mem_of_find?_eq_some hf
        have hp := List.find?_some hf
        simp only [Bool.and_eq_true, decide_eq_true_eq] at hp
        have hc : (step s (.streamDone (some u))).1.currentNumCtx = t := by
          rw [hcur, hgrow, hf]
        rw [hc]
        refine ⟨hmem, hp.1, hp.2, ?_⟩
        intro t' ht'mem ht'a ht'b
        refine find?_min_of_pairwise ctxTiers _ t (by decide) hf t' ht'mem ?_
        simp only [Bool.and_eq_true, decide_eq_true_eq]
        exact ⟨ht'a, ht'b⟩
    · intro hnone
      have hf : ctxTiers.find?
          (fun t => (streamDoneFlags s).currentNumCtx < t &&
            t ≤ (streamDoneFlags s).maxNumCtx) = none := by
        apply List.find?_eq_none.mpr
        intro x hx
        simp only [Bool.and_eq_true, decide_eq_true_eq]
        exact fun hab => hnone x hx hab
      rw [hcur, hgrow, hf]
      rfl
  · intro hle
    have hcond : ¬ (0 < u.promptTokens ∧
        ctxThreshold (streamDoneFlags s).currentNumCtx < u.promptTokens) := by
      rintro ⟨h1, h2⟩
      exact absurd hle (not_le.mpr h2)
    rw [hcur, applyUsage_nogrow _ _ hcond]
    rfl

/-- Witness for `ctx_tier_transition`: the first scenario turn advances the
tier from 4096 to 8192. -/
theorem ctx_tier_transition_witness :
    (step (initState false 32768) (.streamDone (some ⟨3000⟩))).1.currentNumCtx = 8192 :=
  (ctx_tier_transition (initState false 32768) ⟨3000⟩ (by decide)).2.2.1

theorem run_tier (s : TuiState) (events : List Event) :
    s.currentNumCtx ≤ (run s events).currentNumCtx ∧
    (run s events).maxNumCtx = s.maxNumCtx ∧
    (s.currentNumCtx ≤ s.maxNumCtx → (run s events).currentNumCtx ≤ s.maxNumCtx) := by
  induction events generalizing s with
  | nil => exact ⟨le_refl _, rfl, fun h => h⟩
  | cons e es ih =>
    have hstep := step_tier s e
    have hrun := ih (step s e).1
    refine ⟨?_, ?_, ?_⟩
    · exact le_trans hstep.1 hrun.1
    · rw [show run s (e :: es) = run (step s e).1 es from rfl, hrun.2.1, hstep.2.1]
    · intro h
      have h1 : (step s e).1.currentNumCtx ≤ (step s e).1.maxNumCtx := by
        rw [hstep.2.1]
        exact hstep.2.2 h
      have h2 := hrun.2.2 h1
      rw [show run s (e :: es) = run (step s e).1 es from rfl]
      calc (run (step s e).1 es).currentNumCtx
          ≤ (step s e).1.maxNumCtx := h2
        _ = s.maxNumCtx := hstep.2.1

/-- Counterexample to C5 as stated: with a configured ceiling of 2000
(positive, but below the smallest ladder tier) the process starts at tier
4096, already above the configured ceiling. -/
theorem ctx_tier_ceiling_counterexample :
    (initState false 2000).maxNumCtx = 2000 ∧
    (initState false 2000).currentNumCtx = 4096 ∧
    ¬ (initState false 2000).currentNumCtx ≤ (initState false 2000).maxNumCtx := by
  decide

/-- C5 (amended): across any event sequence within one run the context tier
is monotone non-decreasing, and — provided the effective ceiling (the
configured value, or 32768 when that value is non-positive) is at least the
smallest tier 4096 — the tier never exceeds the ceiling, including the
initial tier the process starts with. -/
theorem ctx_tier_monotone_bounded (enabled : Bool) (cfg : Int)
    (events pre suf : List Event)
    (hceil : 4096 ≤ effectiveMaxCtx cfg)
    (hsplitEv : events = pre ++ suf) :
    (∀ s : TuiState, ∀ e : Event, s.currentNumCtx ≤ (step s e).1.currentNumCtx) ∧
    (run (initState enabled cfg) pre).currentNumCtx ≤
      (run (initState enabled cfg) events).currentNumCtx ∧
    (initState enabled cfg).currentNumCtx ≤ effectiveMaxCtx cfg ∧
    (run (initState enabled cfg) events).currentNumCtx ≤ effectiveMaxCtx cfg := by
  have hinit : (initState enabled cfg).currentNumCtx = 4096 := rfl
  have hmax : (initState enabled cfg).maxNumCtx = effectiveMaxCtx cfg := rfl
  refine ⟨fun s e => (step_tier s e).1, ?_, ?_, ?_⟩
  · rw [hsplitEv, show run (initState enabled cfg) (pre ++ suf) =
        run (run (initState enabled cfg) pre) suf from List.foldl_append ..]
    exact (run_tier (run (initState enabled cfg) pre) suf).1
  · rw [hinit]
    exact hceil
  · have h := (run_tier (initState enabled cfg) events).2.2
    rw [← hmax]
    apply h
    rw [hinit, hmax]
    exact hceil

/-- Witness for `ctx_tier_monotone_bounded` on a concrete two-turn trace with
the default ceiling. -/
theorem ctx_tier_monotone_bounded_witness :
    (run (initState false 32768)
        [Event.streamDone (some ⟨3000⟩), Event.streamDone (some ⟨20000⟩)]).currentNumCtx ≤
      effectiveMaxCtx 32768 :=
  (ctx_tier_monotone_bounded false 32768
    [Event.streamDone (some ⟨3000⟩), Event.streamDone (some ⟨20000⟩)]
    [Event.streamDone (some ⟨3000⟩)] [Event.streamDone (some ⟨20000⟩)]
    (by decide) rfl).2.2.2

end StefanClaw
